import Mathlib

/-!
# Verification of the swarm-provenance SDK's metadata / signature model

This file gives a shallow embedding, in Lean 4, of the core logic of the
`@datafund/swarm-provenance` TypeScript SDK: the byte/hash codec
(`sha256Hex`, `bytesToBase64`, `base64ToBytes`), the metadata model
(`buildMetadata`, `extractContent`, `verifyContentHash`,
`serializeMetadata`, `parseMetadata`), the canonical-JSON signature
verifier (`toCanonicalJson`, `verifyDataHash`, `verifySignature`,
`verifyAllSignatures`) and the gateway client's upload / download
response pipelines.

Modelling conventions:
* byte sequences are `List Nat`, each entry intended `< 256`
  (the `Uint8Array` element type; hypotheses state the bound where the
  source relies on it);
* 32-bit machine words are `Nat` reduced by `% 4294967296`;
* JavaScript `undefined` / optional values are `Option`;
* JavaScript string truthiness (`if (s)`) is `s ≠ ""` on `Option String`;
* fallible operations return `Except String`.
-/

namespace Provenance

/-- Word-size reduction: keep the low 32 bits of a natural number. -/
def w32 (n : Nat) : Nat := n % 4294967296

/-- Rotate a 32-bit word right by `n` bits. -/
def rotr (n x : Nat) : Nat := w32 ((x >>> n) ||| (x <<< (32 - n)))

/-- Bitwise complement of a 32-bit word. -/
def wNot (x : Nat) : Nat := 4294967295 - x

/-- SHA-256 `Ch` function. -/
def shaCh (x y z : Nat) : Nat := (x &&& y) ^^^ (wNot x &&& z)

/-- SHA-256 `Maj` function. -/
def shaMaj (x y z : Nat) : Nat := (x &&& y) ^^^ (x &&& z) ^^^ (y &&& z)

/-- SHA-256 big sigma-0. -/
def bigSigma0 (x : Nat) : Nat := rotr 2 x ^^^ rotr 13 x ^^^ rotr 22 x

/-- SHA-256 big sigma-1. -/
def bigSigma1 (x : Nat) : Nat := rotr 6 x ^^^ rotr 11 x ^^^ rotr 25 x

/-- SHA-256 small sigma-0. -/
def smallSigma0 (x : Nat) : Nat := rotr 7 x ^^^ rotr 18 x ^^^ (x >>> 3)

/-- SHA-256 small sigma-1. -/
def smallSigma1 (x : Nat) : Nat := rotr 17 x ^^^ rotr 19 x ^^^ (x >>> 10)

/-- The 64 SHA-256 round constants (FIPS 180-4, written in decimal). -/
def shaK : List Nat :=
  [1116352408, 1899447441, 3049323471, 3921009573, 961987163, 1508970993, 2453635748,
   2870763221, 3624381080, 310598401, 607225278, 1426881987, 1925078388, 2162078206,
   2614888103, 3248222580, 3835390401, 4022224774, 264347078, 604807628, 770255983,
   1249150122, 1555081692, 1996064986, 2554220882, 2821834349, 2952996808, 3210313671,
   3336571891, 3584528711, 113926993, 338241895, 666307205, 773529912, 1294757372,
   1396182291, 1695183700, 1986661051, 2177026350, 2456956037, 2730485921, 2820302411,
   3259730800, 3345764771, 3516065817, 3600352804, 4094571909, 275423344, 430227734,
   506948616, 659060556, 883997877, 958139571, 1322822218, 1537002063, 1747873779,
   1955562222, 2024104815, 2227730452, 2361852424, 2428436474, 2756734187, 3204031479,
   3329325298]

/-- The SHA-256 initial hash state (FIPS 180-4, written in decimal). -/
def shaH0 : List Nat :=
  [1779033703, 3144134277, 1013904242, 2773480762, 1359893119, 2600822924, 528734635,
   1541459225]

/-- Big-endian byte rendering of `n` on `k` bytes. -/
def bytesBE (k n : Nat) : List Nat :=
  (List.range k).map fun i => (n >>> (8 * (k - 1 - i))) % 256

/-- SHA-256 message padding: append `0x80`, zeros and the 64-bit
bit-length so the total length is a multiple of 64 bytes. -/
def padMessage (msg : List Nat) : List Nat :=
  msg ++ [0x80] ++ List.replicate ((119 - msg.length % 64) % 64) 0 ++ bytesBE 8 (8 * msg.length)

/-- Split a byte list into 64-byte blocks (fuel-driven so that the kernel
can evaluate it; the fuel is the list length, always sufficient). -/
def chunks64Fuel : Nat → List Nat → List (List Nat)
  | _, [] => []
  | 0, l => [l]
  | fuel + 1, l => l.take 64 :: chunks64Fuel fuel (l.drop 64)

/-- Split a byte list into 64-byte blocks. -/
def chunks64 (l : List Nat) : List (List Nat) := chunks64Fuel l.length l

/-- Assemble a 64-byte block into its 16 initial 32-bit schedule words. -/
def blockWords (block : List Nat) : List Nat :=
  (List.range 16).map fun i =>
    block.getD (4 * i) 0 * 16777216 + block.getD (4 * i + 1) 0 * 65536 +
      block.getD (4 * i + 2) 0 * 256 + block.getD (4 * i + 3) 0

/-- Extend the 16 schedule words to 64. -/
def extendSchedule (w : List Nat) : List Nat :=
  (List.range 48).foldl
    (fun w _ =>
      w ++ [w32 (smallSigma1 (w.getD (w.length - 2) 0) + w.getD (w.length - 7) 0 +
        smallSigma0 (w.getD (w.length - 15) 0) + w.getD (w.length - 16) 0)])
    w

/-- One SHA-256 compression step over a block. -/
def compressBlock (h : List Nat) (block : List Nat) : List Nat :=
  let w := extendSchedule (blockWords block)
  let final := (w.zip shaK).foldl
    (fun s wk =>
      match s with
      | [a, b, c, d, e, f, g, hh] =>
        let t1 := w32 (hh + bigSigma1 e + shaCh e f g + wk.2 + wk.1)
        let t2 := w32 (bigSigma0 a + shaMaj a b c)
        [w32 (t1 + t2), a, b, c, w32 (d + t1), e, f, g]
      | s => s)
    h
  (h.zip final).map fun p => w32 (p.1 + p.2)

/-- SHA-256 of a byte list, as the final eight 32-bit state words. -/
def sha256Words (msg : List Nat) : List Nat :=
  (chunks64 (padMessage msg)).foldl compressBlock shaH0

/-- Lowercase hex digit for a value `< 16`. -/
def hexDigit (n : Nat) : Char :=
  if n < 10 then Char.ofNat (48 + n) else Char.ofNat (87 + n)

/-- Render a 32-bit word as 8 lowercase hex characters. -/
def wordHex (n : Nat) : String :=
  String.mk ((List.range 8).map fun i => hexDigit ((n >>> (4 * (7 - i))) % 16))

/-- `sha256Hex` of the source's `utils.ts`, on raw bytes: SHA-256 digest as a
64-character lowercase hex string. -/
def sha256HexBytes (msg : List Nat) : String :=
  String.join ((sha256Words msg).map wordHex)

/-- UTF-8 encoding of a single character (the `TextEncoder` model). -/
def utf8EncodeChar (c : Char) : List Nat :=
  let n := c.toNat
  if n < 128 then [n]
  else if n < 2048 then [192 + n / 64, 128 + n % 64]
  else if n < 65536 then [224 + n / 4096, 128 + (n / 64) % 64, 128 + n % 64]
  else [240 + n / 262144, 128 + (n / 4096) % 64, 128 + (n / 64) % 64, 128 + n % 64]

/-- UTF-8 bytes of a string (`new TextEncoder().encode(s)`). -/
def utf8Bytes (s : String) : List Nat :=
  s.data.foldr (fun c acc => utf8EncodeChar c ++ acc) []

/-- `sha256Hex` applied to a string input: the string is first encoded as
UTF-8 by `toBytes` in the source. -/
def sha256Hex (s : String) : String := sha256HexBytes (utf8Bytes s)

/-- The base64 alphabet character for a sextet value `< 64`. -/
def sextetChar (n : Nat) : Char :=
  if n < 26 then Char.ofNat (65 + n)
  else if n < 52 then Char.ofNat (97 + (n - 26))
  else if n < 62 then Char.ofNat (48 + (n - 52))
  else if n = 62 then '+' else '/'

/-- Sextet value of a base64 alphabet character; `none` for every character
outside the alphabet (including the padding character). -/
def sextetVal (c : Char) : Option Nat :=
  let n := c.toNat
  if 65 ≤ n ∧ n ≤ 90 then some (n - 65)
  else if 97 ≤ n ∧ n ≤ 122 then some (n - 71)
  else if 48 ≤ n ∧ n ≤ 57 then some (n + 4)
  else if c = '+' then some 62
  else if c = '/' then some 63
  else none

/-- Base64-encode a byte list, three bytes at a time, with `=` padding. -/
def base64EncodeChars : List Nat → List Char
  | [] => []
  | [b1] => [sextetChar (b1 / 4), sextetChar (b1 % 4 * 16), '=', '=']
  | [b1, b2] => [sextetChar (b1 / 4), sextetChar (b1 % 4 * 16 + b2 / 16), sextetChar (b2 % 16 * 4), '=']
  | b1 :: b2 :: b3 :: rest =>
    sextetChar (b1 / 4) :: sextetChar (b1 % 4 * 16 + b2 / 16) ::
      sextetChar (b2 % 16 * 4 + b3 / 64) :: sextetChar (b3 % 64) :: base64EncodeChars rest

/-- `bytesToBase64` of the source's `utils.ts`: standard base64 with padding
(`Buffer.from(bytes).toString('base64')`, identically the `btoa` fallback). -/
def bytesToBase64 (bytes : List Nat) : String := String.mk (base64EncodeChars bytes)

/-- Reassemble bytes from a stream of sextet values: groups of four sextets
give three bytes; a trailing group of two or three sextets gives one or two
bytes; a lone trailing sextet is dropped. -/
def decodeSextets : List Nat → List Nat
  | s1 :: s2 :: s3 :: s4 :: rest =>
    (s1 * 4 + s2 / 16) :: (s2 % 16 * 16 + s3 / 4) :: (s3 % 4 * 64 + s4) :: decodeSextets rest
  | [s1, s2, s3] => [s1 * 4 + s2 / 16, s2 % 16 * 16 + s3 / 4]
  | [s1, s2] => [s1 * 4 + s2 / 16]
  | _ => []

/-- The Node path of the source's `base64ToBytes`
(`new Uint8Array(Buffer.from(base64, 'base64'))`): decoding stops at the
first `=` (Node's decoder returns there); before it, characters outside the
base64 alphabet are silently skipped and the remaining sextets decoded;
this decoder never fails. -/
def nodeBase64Decode (s : String) : List Nat :=
  decodeSextets ((s.data.takeWhile fun c => c != '=').filterMap sextetVal)

/-- Lexicographic comparison of character lists by code point. -/
def charListLe : List Char → List Char → Bool
  | [], _ => true
  | _ :: _, [] => false
  | a :: as, b :: bs =>
    if a.toNat < b.toNat then true
    else if b.toNat < a.toNat then false
    else charListLe as bs

/-- The string order used by the canonicalizer's key sort. -/
def strLe (a b : String) : Prop := charListLe a.data b.data = true

instance : DecidableRel strLe := fun _ _ => inferInstanceAs (Decidable (_ = true))

instance : IsTrans String strLe :=
  ⟨fun a b c => by
    have key : ∀ x y z, charListLe x y = true → charListLe y z = true →
        charListLe x z = true := by
      intro x
      induction x with
      | nil => intro y z _ _; rfl
      | cons x xs ih =>
        intro y z hab hbc
        cases y with
        | nil => simp [charListLe] at hab
        | cons y ys =>
          cases z with
          | nil => simp [charListLe] at hbc
          | cons z zs =>
            simp only [charListLe] at hab hbc ⊢
            split_ifs at hab hbc ⊢ <;>
              first
                | rfl
                | omega
                | exact ih _ _ hab hbc
    exact key a.data b.data c.data⟩

instance : IsTotal String strLe :=
  ⟨fun a b => by
    have key : ∀ x y, charListLe x y = true ∨ charListLe y x = true := by
      intro x
      induction x with
      | nil => intro y; left; rfl
      | cons x xs ih =>
        intro y
        cases y with
        | nil => right; rfl
        | cons y ys =>
          simp only [charListLe]
          split_ifs <;> first | simp | omega | exact ih ys
    exact key a.data b.data⟩

instance : IsAntisymm String strLe :=
  ⟨fun a b hab hba => by
    have key : ∀ x y, charListLe x y = true → charListLe y x = true → x = y := by
      intro x
      induction x with
      | nil =>
        intro y _ hyx
        cases y with
        | nil => rfl
        | cons c cs => simp [charListLe] at hyx
      | cons x xs ih =>
        intro y hxy hyx
        cases y with
        | nil => simp [charListLe] at hxy
        | cons y ys =>
          simp only [charListLe] at hxy hyx
          split_ifs at hxy hyx <;> try omega
          case _ h1 h2 =>
            have hn : x.toNat = y.toNat := by omega
            have heq : x = y := Char.ext (UInt32.ext hn)
            simp [heq, ih ys hxy hyx]
    cases a with
    | mk da =>
      cases b with
      | mk db => exact congrArg String.mk (key da db hab hba)⟩

/-- `String.prototype.toLowerCase()`, modelled as ASCII lowercasing of each
character (signer strings are address-like ASCII in every reachable use). -/
def jsToLowerCase (s : String) : String := String.mk (s.data.map Char.toLower)

/-! ## Canonical JSON -/

/-- `JSON.stringify` escaping for one character inside a string literal. -/
def jsonEscapeChar (c : Char) : List Char :=
  if c = '"' then ['\\', '"']
  else if c = '\\' then ['\\', '\\']
  else if c = Char.ofNat 8 then ['\\', 'b']
  else if c = '\t' then ['\\', 't']
  else if c = '\n' then ['\\', 'n']
  else if c = Char.ofNat 12 then ['\\', 'f']
  else if c = Char.ofNat 13 then ['\\', 'r']
  else if c.toNat < 32 then ['\\', 'u', '0', '0', hexDigit (c.toNat / 16), hexDigit (c.toNat % 16)]
  else [c]

/-- `JSON.stringify` body escaping of a whole string. -/
def jsonEscape (s : String) : String :=
  String.mk (s.data.foldr (fun c acc => jsonEscapeChar c ++ acc) [])

/-- `JSON.stringify` of a string value: quoted and escaped. -/
def jsonQuote (s : String) : String := "\"" ++ jsonEscape s ++ "\""

/-- The JSON values the verifier's canonicalizer is applied to: a bare
string, or a flat object whose values are strings.  (The source's
`toCanonicalJson` is generic, but `verifyDataHash` only ever hands it these
two shapes.) -/
inductive CanonValue where
  | str (s : String)
  | obj (fields : List (String × String))

/-- JavaScript property read `fields[k]` on an object with string values
(objects are built with distinct keys, so the first binding is the
binding). -/
def jsIndex (fields : List (String × String)) (k : String) : String :=
  ((fields.find? fun p => p.1 == k).map Prod.snd).getD ""

/-- `toCanonicalJson` of the source's `notary.ts`: strings render as their
JSON literal; objects render with keys sorted and no whitespace. -/
def toCanonicalJson : CanonValue → String
  | .str s => jsonQuote s
  | .obj fields =>
    let keys := List.insertionSort strLe (fields.map Prod.fst)
    "\x7b" ++
      String.intercalate "," (keys.map fun k => jsonQuote k ++ ":" ++ jsonQuote (jsIndex fields k)) ++
      "\x7d"

/-! ## Data model (`types.ts`) -/

/-- `ProvenanceMetadata` of `types.ts`: base64 content, content hash, stamp
id, and two optional advisory fields. -/
structure ProvenanceMetadata where
  data : String
  content_hash : String
  stamp_id : String
  provenance_standard : Option String
  encryption : Option String
deriving DecidableEq, Repr

/-- `NotarySignature` of `types.ts`. -/
structure NotarySignature where
  type : String
  signer : String
  timestamp : String
  data_hash : String
  signature : String
  hashed_fields : List String
  signed_message_format : String
deriving DecidableEq, Repr

/-- JavaScript truthiness of an optional string (`if (s)`): `undefined` and
the empty string are falsy. -/
def jsTruthy : Option String → Bool
  | some s => s != ""
  | none => false

/-! ## Metadata model (`metadata.ts`) -/

/-- `MetadataBuilderOptions` of `metadata.ts`. -/
structure MetadataBuilderOptions where
  stampId : String
  standard : Option String
  encryption : Option String
deriving DecidableEq, Repr

/-- Content accepted by `buildMetadata` / `toBytes`: a byte buffer or a
string (strings are UTF-8 encoded). -/
inductive ContentInput where
  | bytes (b : List Nat)
  | str (s : String)

/-- `toBytes` of `utils.ts`: byte buffers pass through, strings are UTF-8
encoded. -/
def toBytes : ContentInput → List Nat
  | .bytes b => b
  | .str s => utf8Bytes s

/-- Well-formedness of a content input: buffer entries are bytes.  (This is
the `Uint8Array` element type, implicit in the source.) -/
def validContent : ContentInput → Prop
  | .bytes b => ∀ x ∈ b, x < 256
  | .str _ => True

/-- `buildMetadata` of `metadata.ts`: `data` is the base64 of the content
bytes, `content_hash` their SHA-256 hex digest; the optional fields are set
only when the corresponding option is truthy. -/
def buildMetadata (content : List Nat) (options : MetadataBuilderOptions) : ProvenanceMetadata :=
  { data := bytesToBase64 content
    content_hash := sha256HexBytes content
    stamp_id := options.stampId
    provenance_standard := if jsTruthy options.standard then options.standard else none
    encryption := if jsTruthy options.encryption then options.encryption else none }

/-- `extractContent` of `metadata.ts`: base64-decode the `data` field
(the Node `Buffer` path of `base64ToBytes`). -/
def extractContent (metadata : ProvenanceMetadata) : List Nat :=
  nodeBase64Decode metadata.data

/-- `verifyContentHash` of `metadata.ts`: recompute the SHA-256 of the
extracted content and compare it to `content_hash`. -/
def verifyContentHash (metadata : ProvenanceMetadata) : Bool :=
  sha256HexBytes (extractContent metadata) == metadata.content_hash

/-! ## Signature verifier (`notary.ts`, canonical-JSON generation) -/

/-- JavaScript property write `obj[k] = v`: overwrite in place when the key
exists, append otherwise. -/
def jsObjSet (obj : List (String × String)) (k v : String) : List (String × String) :=
  if obj.any fun p => p.1 == k then obj.map fun p => if p.1 == k then (k, v) else p
  else obj ++ [(k, v)]

/-- The loop body of `verifyDataHash` that builds the object to hash from
one entry of `hashed_fields`: recognized names copy the metadata field
(`provenance_standard` defaulting to `""`), anything else is skipped. -/
def hashedFieldStep (metadata : ProvenanceMetadata) (obj : List (String × String))
    (field : String) : List (String × String) :=
  if field == "content_hash" then jsObjSet obj field metadata.content_hash
  else if field == "data" then jsObjSet obj field metadata.data
  else if field == "stamp_id" then jsObjSet obj field metadata.stamp_id
  else if field == "provenance_standard" then
    jsObjSet obj field (metadata.provenance_standard.getD "")
  else obj

/-- `verifyDataHash` of `notary.ts` (the canonical-JSON generation, as
shipped in the build artifact and exercised by the unit tests): hash the
canonical JSON of the bare `data` string when `hashed_fields` is exactly
`["data"]`, of the object assembled from the recognized hashed fields
otherwise, and compare to `data_hash`. -/
def verifyDataHash (signature : NotarySignature) (metadata : ProvenanceMetadata) : Bool :=
  let hashedFields := signature.hashed_fields
  let valueToHash : CanonValue :=
    if hashedFields.length == 1 && hashedFields.headD "" == "data" then
      .str metadata.data
    else
      .obj (hashedFields.foldl (hashedFieldStep metadata) [])
  sha256Hex (toCanonicalJson valueToHash) == signature.data_hash

/-- Result record of `verifySignature`. -/
structure VerifyResult where
  valid : Bool
  dataHashValid : Bool
  signerValid : Option Bool
  error : Option String
deriving DecidableEq, Repr

/-- `verifySignature` of `notary.ts`: check the data hash first and
short-circuit on mismatch; then compare the signer case-insensitively
against a truthy `expectedSigner`, if one was given. -/
def verifySignature (signature : NotarySignature) (metadata : ProvenanceMetadata)
    (expectedSigner : Option String) : VerifyResult :=
  let dataHashValid := verifyDataHash signature metadata
  if !dataHashValid then
    { valid := false, dataHashValid := false, signerValid := none,
      error := some "Data hash mismatch" }
  else if jsTruthy expectedSigner then
    let expected := expectedSigner.getD ""
    let signerValid := jsToLowerCase signature.signer == jsToLowerCase expected
    if !signerValid then
      { valid := false, dataHashValid := true, signerValid := some false,
        error := some ("Signer mismatch: expected " ++ expected ++ ", got " ++ signature.signer) }
    else
      { valid := true, dataHashValid := true, signerValid := some true, error := none }
  else
    { valid := true, dataHashValid := true, signerValid := none, error := none }

/-- One entry of the `results` list of `verifyAllSignatures`. -/
structure SigResultItem where
  index : Nat
  valid : Bool
  error : Option String
deriving DecidableEq, Repr

/-- Result record of `verifyAllSignatures`. -/
structure AllSigResults where
  allValid : Bool
  results : List SigResultItem
deriving DecidableEq, Repr

/-- `verifyAllSignatures` of `notary.ts`: map `verifySignature` over the
signatures with their indices; `allValid` is the conjunction of the
per-signature `valid` flags. -/
def verifyAllSignatures (signatures : List NotarySignature) (metadata : ProvenanceMetadata)
    (expectedSigner : Option String) : AllSigResults :=
  let results := signatures.enum.map fun p =>
    let result := verifySignature p.2 metadata expectedSigner
    ({ index := p.1, valid := result.valid, error := result.error } : SigResultItem)
  { allValid := results.all fun r => r.valid, results := results }

/-! ## Serialization (`metadata.ts`): `serializeMetadata` / `parseMetadata`

`JSON.stringify` / `JSON.parse` are host builtins; we model the JSON
document they exchange as a tree, so `serializeMetadata` renders the
metadata record to a tree (optional fields simply absent) and
`parseMetadata` runs the source's shape checks over an arbitrary tree. -/

/-- A parsed JSON document. -/
inductive Json where
  | str (s : String)
  | bool (b : Bool)
  | null
  | arr (elems : List Json)
  | obj (fields : List (String × Json))

/-- JavaScript property read `obj[k]` on a parsed JSON object. -/
def jsGet (fields : List (String × Json)) (k : String) : Option Json :=
  (fields.find? fun p => p.1 == k).map Prod.snd

/-- `serializeMetadata` of `metadata.ts` (`JSON.stringify(metadata)`): the
three required fields in declaration order, then each optional field only
when present. -/
def serializeMetadata (metadata : ProvenanceMetadata) : Json :=
  .obj
    ([("data", Json.str metadata.data), ("content_hash", Json.str metadata.content_hash),
      ("stamp_id", Json.str metadata.stamp_id)] ++
      (match metadata.provenance_standard with
        | some s => [("provenance_standard", Json.str s)]
        | none => []) ++
      (match metadata.encryption with
        | some s => [("encryption", Json.str s)]
        | none => []))

/-- `parseMetadata` of `metadata.ts`: require an object (in the JavaScript
`typeof` sense, which admits arrays), then a string-typed `data`,
`content_hash` and `stamp_id`, copying the optional fields through only when
present and string-typed. -/
def parseMetadata (parsed : Json) : Except String ProvenanceMetadata :=
  match parsed with
  | .null => .error "Invalid metadata: expected object"
  | .str _ => .error "Invalid metadata: expected object"
  | .bool _ => .error "Invalid metadata: expected object"
  | .arr _ => .error "Invalid metadata: missing or invalid data field"
  | .obj fields =>
    match jsGet fields "data" with
    | some (.str d) =>
      match jsGet fields "content_hash" with
      | some (.str ch) =>
        match jsGet fields "stamp_id" with
        | some (.str sid) =>
          .ok
            { data := d, content_hash := ch, stamp_id := sid
              provenance_standard :=
                match jsGet fields "provenance_standard" with
                | some (.str s) => some s
                | _ => none
              encryption :=
                match jsGet fields "encryption" with
                | some (.str s) => some s
                | _ => none }
        | _ => .error "Invalid metadata: missing or invalid stamp_id field"
      | _ => .error "Invalid metadata: missing or invalid content_hash field"
    | _ => .error "Invalid metadata: missing or invalid data field"

/-! ## Gateway client (`client.ts`) -/

/-- The error taxonomy of `errors.ts`, as a closed kind tag. -/
inductive ErrorKind where
  | provenance
  | gatewayConnection
  | stamp
  | notary
  | verification
deriving DecidableEq, Repr

/-- An error raised by the client: its class kind, message, optional HTTP
status (`GatewayConnectionError` only) and optional machine code. -/
structure ProvError where
  kind : ErrorKind
  message : String
  statusCode : Option Nat
  code : Option String
deriving DecidableEq, Repr

/-- A parsed gateway error body (`{detail?, code?}`). -/
structure GatewayErrorBody where
  detail : Option String
  code : Option String
deriving DecidableEq, Repr

/-- `ProvenanceClient.handleError`: prefer the gateway's truthy `detail`
over the generic `Gateway error: status statusText` message, and surface the
gateway-supplied code; the result is a `GatewayConnectionError` carrying the
HTTP status. -/
def handleError (status : Nat) (statusText : String) (body : Option GatewayErrorBody) :
    ProvError :=
  let fallback := "Gateway error: " ++ toString status ++ " " ++ statusText
  match body with
  | some b =>
    { kind := .gatewayConnection
      message := match b.detail with | some d => if d == "" then fallback else d | none => fallback
      statusCode := some status, code := b.code }
  | none =>
    { kind := .gatewayConnection, message := fallback, statusCode := some status, code := none }

/-- A signed document returned by the gateway. -/
structure SignedDocument where
  metadata : ProvenanceMetadata
  signatures : List NotarySignature
deriving DecidableEq, Repr

/-- A successful upload response body. -/
structure GatewayUploadResponse where
  reference : String
  signed_document : Option SignedDocument
deriving DecidableEq, Repr

/-- The upload result surfaced to the caller. -/
structure UploadResult where
  reference : String
  metadata : ProvenanceMetadata
  signedDocument : Option SignedDocument
deriving DecidableEq, Repr

/-- Outcome of the upload HTTP round trip: a success body, or a non-success
response with its status, status text and (possibly unparsable) error
body. -/
inductive UploadHttpOutcome where
  | ok (body : GatewayUploadResponse)
  | notOk (status : Nat) (statusText : String) (errorBody : Option GatewayErrorBody)
deriving DecidableEq, Repr

/-- The response-handling tail of `ProvenanceClient.upload` (from the
`response.ok` check on): on success surface the reference and any signed
document verbatim; on non-success classify through `handleError`, rewrapped
as a `NotaryError` exactly when signing was requested. -/
def uploadRespond (sign : Option String) (metadata : ProvenanceMetadata)
    (response : UploadHttpOutcome) : Except ProvError UploadResult :=
  match response with
  | .ok body =>
    .ok { reference := body.reference, metadata := metadata, signedDocument := body.signed_document }
  | .notOk status statusText errorBody =>
    let error := handleError status statusText errorBody
    if sign == some "notary" then
      .error { kind := .notary, message := error.message, statusCode := none, code := error.code }
    else .error error

/-- A parsed download response body: the gateway either wraps the metadata
as `{metadata, signatures?}` or returns the metadata fields directly at the
top level (in which case `client.ts` reads no signatures). -/
inductive GatewayDownloadBody where
  | wrapped (metadata : ProvenanceMetadata) (signatures : Option (List NotarySignature))
  | direct (metadata : ProvenanceMetadata)
deriving DecidableEq, Repr

/-- The download result surfaced to the caller. -/
structure DownloadResult where
  file : List Nat
  metadata : ProvenanceMetadata
  verified : Option Bool
  signatures : Option (List NotarySignature)
deriving DecidableEq, Repr

/-- The `(metadata, signatures?)` pair `ProvenanceClient.download`
normalizes a response body to. -/
def normalizeDownloadBody : GatewayDownloadBody →
    ProvenanceMetadata × Option (List NotarySignature)
  | .wrapped m sigs => (m, sigs)
  | .direct m => (m, none)

/-- The response-handling tail of `ProvenanceClient.download` (after the
HTTP GET and JSON parse): normalize the body shape, extract the content,
fail closed with a `CONTENT_HASH_MISMATCH` provenance error when the content
hash does not verify, and otherwise verify any signatures present (unless
disabled) against the notary address obtained from `notaryInfo`. -/
def downloadRespond (body : GatewayDownloadBody) (verifyOption : Option Bool)
    (notaryAddress : Option String) : Except ProvError DownloadResult :=
  let pair := normalizeDownloadBody body
  let metadata := pair.1
  let signatures := pair.2
  let file := extractContent metadata
  let contentHashValid := verifyContentHash metadata
  if !contentHashValid then
    .error
      { kind := .provenance, message := "Content hash verification failed",
        statusCode := none, code := some "CONTENT_HASH_MISMATCH" }
  else
    let result : DownloadResult :=
      { file := file, metadata := metadata, verified := none, signatures := signatures }
    match signatures with
    | some sigs =>
      if 0 < sigs.length then
        if verifyOption != some false then
          .ok { result with verified := some (verifyAllSignatures sigs metadata notaryAddress).allValid }
        else .ok result
      else .ok result
    | none => .ok result

/-! ## Spec-side renderings of the data-hash input (for claim C1)

These restate, directly from the specification's words, which string
`verifyDataHash` is supposed to hash; the theorems below compare them with
the implementation. -/

/-- The recognized hashed-field names, in lexicographic (key-sorted)
order. -/
def recognizedFields : List String :=
  ["content_hash", "data", "provenance_standard", "stamp_id"]

/-- The metadata value a recognized hashed field contributes
(`provenance_standard` defaulting to the empty string when absent). -/
def specFieldValue (metadata : ProvenanceMetadata) (field : String) : String :=
  if field = "content_hash" then metadata.content_hash
  else if field = "data" then metadata.data
  else if field = "stamp_id" then metadata.stamp_id
  else metadata.provenance_standard.getD ""

/-- Spec rendering of the multi-field case: the object whose keys are
exactly the recognized entries of `hashed_fields` (unrecognized names
skipped), canonicalized as whitespace-free key-sorted JSON. -/
def specHashedObjectJson (signature : NotarySignature) (metadata : ProvenanceMetadata) : String :=
  "\x7b" ++
    String.intercalate ","
      ((recognizedFields.filter fun f => signature.hashed_fields.contains f).map fun f =>
        jsonQuote f ++ ":" ++ jsonQuote (specFieldValue metadata f)) ++
    "\x7d"

/-- The string claim C1 *as written* says gets hashed: the raw `data`
string itself when `hashed_fields` is exactly `["data"]`, the canonical
object JSON otherwise. -/
def claimDataHashInput (signature : NotarySignature) (metadata : ProvenanceMetadata) : String :=
  if signature.hashed_fields = ["data"] then metadata.data
  else specHashedObjectJson signature metadata

/-- The string actually hashed: in the single-field special case the code
canonicalizes the bare `data` string, i.e. hashes its JSON string literal
(quoted and escaped), not the raw string. -/
def amendedDataHashInput (signature : NotarySignature) (metadata : ProvenanceMetadata) : String :=
  if signature.hashed_fields = ["data"] then jsonQuote metadata.data
  else specHashedObjectJson signature metadata

/-- The keys a serialized JSON object carries (`Object.keys` of the parsed
serialization); used to state which fields are present in the output. -/
def jsonObjKeys : Json → List String
  | .obj fields => fields.map Prod.fst
  | _ => []

/-! ## Embedding test vectors

The spec's published vectors, checked against the executable embedding by
kernel evaluation. -/

theorem sha256Hex_empty_vector :
    sha256Hex "" = "e3b0c44298fc1c149afbf4c8996fb92427ae41e4649b934ca495991b7852b855" := by
  decide

theorem sha256Hex_hello_vector :
    sha256Hex "hello" = "2cf24dba5fb0a30e26e83b2ac5b9e29e1b161e5c1fa7425e73043362938b9824" := by
  decide

theorem bytesToBase64_hello_vector :
    bytesToBase64 (utf8Bytes "Hello, World!") = "SGVsbG8sIFdvcmxkIQ==" := by decide

theorem nodeBase64Decode_hello_vector :
    nodeBase64Decode "SGVsbG8sIFdvcmxkIQ==" = utf8Bytes "Hello, World!" := by decide

theorem nodeBase64Decode_stops_at_pad : nodeBase64Decode "QQ==QQ==" = [65] := by decide

theorem toCanonicalJson_sorts_keys :
    toCanonicalJson (.obj [("stamp_id", "s1"), ("content_hash", "h1")]) =
      "\x7b\"content_hash\":\"h1\",\"stamp_id\":\"s1\"\x7d" := by decide

theorem toCanonicalJson_escapes :
    toCanonicalJson (.str "a\"b") = "\"a\\\"b\"" := by decide

/-! ## Base64 round trip -/

theorem sextetVal_sextetChar : ∀ n, n < 64 → sextetVal (sextetChar n) = some n := by decide

theorem sextetChar_ne_pad : ∀ n, n < 64 → (sextetChar n != '=') = true := by decide

theorem decodeSextets_encode :
    ∀ l : List Nat, (∀ b ∈ l, b < 256) →
      decodeSextets
        (((base64EncodeChars l).takeWhile fun c => c != '=').filterMap sextetVal) = l := by
  intro l
  induction l using base64EncodeChars.induct with
  | case1 =>
    intro _
    simp [base64EncodeChars, decodeSextets]
  | case2 b1 =>
    intro h
    have hb1 : b1 < 256 := h b1 (by simp)
    simp only [base64EncodeChars, List.takeWhile_cons,
      sextetChar_ne_pad _ (by omega : b1 / 4 < 64),
      sextetChar_ne_pad _ (by omega : b1 % 4 * 16 < 64), bne_self_eq_false,
      Bool.false_eq_true, if_false, if_true, List.filterMap_cons, List.filterMap_nil,
      sextetVal_sextetChar _ (by omega : b1 / 4 < 64),
      sextetVal_sextetChar _ (by omega : b1 % 4 * 16 < 64)]
    simp only [decodeSextets, List.cons.injEq, and_true]
    omega
  | case3 b1 b2 =>
    intro h
    have hb1 : b1 < 256 := h b1 (by simp)
    have hb2 : b2 < 256 := h b2 (by simp)
    simp only [base64EncodeChars, List.takeWhile_cons,
      sextetChar_ne_pad _ (by omega : b1 / 4 < 64),
      sextetChar_ne_pad _ (by omega : b1 % 4 * 16 + b2 / 16 < 64),
      sextetChar_ne_pad _ (by omega : b2 % 16 * 4 < 64), bne_self_eq_false,
      Bool.false_eq_true, if_false, if_true, List.filterMap_cons, List.filterMap_nil,
      sextetVal_sextetChar _ (by omega : b1 / 4 < 64),
      sextetVal_sextetChar _ (by omega : b1 % 4 * 16 + b2 / 16 < 64),
      sextetVal_sextetChar _ (by omega : b2 % 16 * 4 < 64)]
    simp only [decodeSextets, List.cons.injEq, and_true]
    refine ⟨by omega, by omega⟩
  | case4 b1 b2 b3 rest ih =>
    intro h
    have hb1 : b1 < 256 := h b1 (by simp)
    have hb2 : b2 < 256 := h b2 (by simp)
    have hb3 : b3 < 256 := h b3 (by simp)
    have hrest : ∀ b ∈ rest, b < 256 := fun b hb => h b (by simp [hb])
    simp only [base64EncodeChars, List.takeWhile_cons,
      sextetChar_ne_pad _ (by omega : b1 / 4 < 64),
      sextetChar_ne_pad _ (by omega : b1 % 4 * 16 + b2 / 16 < 64),
      sextetChar_ne_pad _ (by omega : b2 % 16 * 4 + b3 / 64 < 64),
      sextetChar_ne_pad _ (by omega : b3 % 64 < 64), if_true, List.filterMap_cons,
      sextetVal_sextetChar _ (by omega : b1 / 4 < 64),
      sextetVal_sextetChar _ (by omega : b1 % 4 * 16 + b2 / 16 < 64),
      sextetVal_sextetChar _ (by omega : b2 % 16 * 4 + b3 / 64 < 64),
      sextetVal_sextetChar _ (by omega : b3 % 64 < 64)]
    simp only [decodeSextets, ih hrest, List.cons.injEq]
    refine ⟨by omega, by omega, by omega, trivial⟩

/-- The Node decoder inverts the encoder on genuine byte lists (encoder
output has `=` only as trailing padding, where decoding stops). -/
theorem nodeBase64Decode_bytesToBase64 (l : List Nat) (h : ∀ b ∈ l, b < 256) :
    nodeBase64Decode (bytesToBase64 l) = l := by
  simpa [nodeBase64Decode, bytesToBase64] using decodeSextets_encode l h

theorem map_fst_jsObjSet (obj : List (String × String)) (k v : String) :
    (jsObjSet obj k v).map Prod.fst =
      if obj.any fun p => p.1 == k then obj.map Prod.fst else obj.map Prod.fst ++ [k] := by
  unfold jsObjSet
  split_ifs with h
  · rw [List.map_map]
    apply List.map_congr_left
    intro p _
    by_cases hk : p.1 = k
    · simp [Function.comp, hk]
    · simp [Function.comp, hk]
  · simp

theorem not_mem_map_fst_of_not_any {obj : List (String × String)} {k : String}
    (h : ¬obj.any fun p => p.1 == k) : k ∉ obj.map Prod.fst := by
  intro hk
  obtain ⟨p, hp, hpk⟩ := List.mem_map.mp hk
  exact h (List.any_eq_true.mpr ⟨p, hp, by simp [hpk]⟩)

theorem mem_map_fst_jsObjSet {obj : List (String × String)} {k v a : String} :
    a ∈ (jsObjSet obj k v).map Prod.fst ↔ a ∈ obj.map Prod.fst ∨ a = k := by
  rw [map_fst_jsObjSet]
  split_ifs with h
  · obtain ⟨p, hp, hpk⟩ := List.any_eq_true.mp h
    constructor
    · exact Or.inl
    · rintro (ha | rfl)
      · exact ha
      · exact List.mem_map.mpr ⟨p, hp, by simpa using hpk⟩
  · simp

theorem nodup_map_fst_jsObjSet {obj : List (String × String)} {k v : String}
    (h : (obj.map Prod.fst).Nodup) : ((jsObjSet obj k v).map Prod.fst).Nodup := by
  rw [map_fst_jsObjSet]
  split_ifs with hk
  · exact h
  · simp only [List.nodup_append, List.nodup_cons, List.nodup_nil]
    exact ⟨h, by simp, by simpa using not_mem_map_fst_of_not_any hk⟩

theorem mem_jsObjSet {obj : List (String × String)} {k v : String} {p : String × String}
    (hp : p ∈ jsObjSet obj k v) : p ∈ obj ∨ p = (k, v) := by
  unfold jsObjSet at hp
  split_ifs at hp with h
  · obtain ⟨q, hq, hqp⟩ := List.mem_map.mp hp
    by_cases hqk : q.1 = k
    · right
      simp only [hqk, beq_self_eq_true, if_true] at hqp
      exact hqp.symm
    · left
      simp only [hqk, beq_iff_eq, if_false, if_neg hqk] at hqp
      exact hqp ▸ hq
  · rcases List.mem_append.mp hp with h1 | h1
    · exact Or.inl h1
    · right; simpa using h1

theorem jsIndex_of_values {obj : List (String × String)} {m : ProvenanceMetadata} {k : String}
    (hval : ∀ p ∈ obj, p.2 = specFieldValue m p.1) (hk : k ∈ obj.map Prod.fst) :
    jsIndex obj k = specFieldValue m k := by
  unfold jsIndex
  cases hfind : obj.find? fun p => p.1 == k with
  | none =>
    exfalso
    obtain ⟨p, hp, hpk⟩ := List.mem_map.mp hk
    have := List.find?_eq_none.mp hfind p hp
    simp [hpk] at this
  | some q =>
    have hq1 : q.1 = k := by simpa using List.find?_some hfind
    have hqmem := List.mem_of_find?_eq_some hfind
    simp [hval q hqmem, hq1]

theorem hashedFieldStep_map_fst_mem (m : ProvenanceMetadata) (obj : List (String × String))
    (f a : String) :
    a ∈ (hashedFieldStep m obj f).map Prod.fst ↔
      a ∈ obj.map Prod.fst ∨ (a = f ∧ f ∈ recognizedFields) := by
  have hside : ∀ v : String, f ∈ recognizedFields →
      (a ∈ (jsObjSet obj f v).map Prod.fst ↔
        a ∈ obj.map Prod.fst ∨ (a = f ∧ f ∈ recognizedFields)) := by
    intro v hf
    rw [mem_map_fst_jsObjSet]
    constructor
    · rintro (ha | rfl)
      · exact Or.inl ha
      · exact Or.inr ⟨rfl, hf⟩
    · rintro (ha | ⟨rfl, _⟩)
      · exact Or.inl ha
      · exact Or.inr rfl
  unfold hashedFieldStep
  split_ifs with h1 h2 h3 h4
  · exact hside _ (by simp only [beq_iff_eq] at h1; simp [h1, recognizedFields])
  · exact hside _ (by simp only [beq_iff_eq] at h2; simp [h2, recognizedFields])
  · exact hside _ (by simp only [beq_iff_eq] at h3; simp [h3, recognizedFields])
  · exact hside _ (by simp only [beq_iff_eq] at h4; simp [h4, recognizedFields])
  · constructor
    · exact Or.inl
    · rintro (ha | ⟨rfl, hmem⟩)
      · exact ha
      · simp only [beq_iff_eq] at h1 h2 h3 h4
        simp [recognizedFields] at hmem
        rcases hmem with rfl | rfl | rfl | rfl <;> simp_all

theorem hashedFieldStep_nodup (m : ProvenanceMetadata) (obj : List (String × String))
    (f : String) (h : (obj.map Prod.fst).Nodup) :
    ((hashedFieldStep m obj f).map Prod.fst).Nodup := by
  unfold hashedFieldStep
  split_ifs <;> first | exact nodup_map_fst_jsObjSet h | exact h

theorem hashedFieldStep_values (m : ProvenanceMetadata) (obj : List (String × String))
    (f : String) (h : ∀ p ∈ obj, p.2 = specFieldValue m p.1) :
    ∀ p ∈ hashedFieldStep m obj f, p.2 = specFieldValue m p.1 := by
  have hside : ∀ v : String, v = specFieldValue m f →
      ∀ p ∈ jsObjSet obj f v, p.2 = specFieldValue m p.1 := by
    intro v hv p hp
    rcases mem_jsObjSet hp with hmem | rfl
    · exact h p hmem
    · exact hv
  unfold hashedFieldStep
  split_ifs with h1 h2 h3 h4
  · exact hside _ (by simp only [beq_iff_eq] at h1; subst h1; simp [specFieldValue])
  · exact hside _ (by simp only [beq_iff_eq] at h2; subst h2; simp [specFieldValue])
  · exact hside _ (by simp only [beq_iff_eq] at h3; subst h3; simp [specFieldValue])
  · exact hside _ (by simp only [beq_iff_eq] at h4; subst h4; simp [specFieldValue])
  · exact h

theorem foldl_hashedFieldStep_spec (m : ProvenanceMetadata) :
    ∀ (fields : List String) (obj : List (String × String)),
      (obj.map Prod.fst).Nodup →
      (∀ p ∈ obj, p.2 = specFieldValue m p.1) →
      (((fields.foldl (hashedFieldStep m) obj).map Prod.fst).Nodup ∧
        (∀ p ∈ fields.foldl (hashedFieldStep m) obj, p.2 = specFieldValue m p.1) ∧
        ∀ a, a ∈ (fields.foldl (hashedFieldStep m) obj).map Prod.fst ↔
          a ∈ obj.map Prod.fst ∨ (a ∈ fields ∧ a ∈ recognizedFields)) := by
  intro fields
  induction fields with
  | nil => intro obj hnd hval; exact ⟨hnd, hval, fun a => by simp⟩
  | cons f fs ih =>
    intro obj hnd hval
    simp only [List.foldl_cons]
    obtain ⟨ihnd, ihval, ihmem⟩ :=
      ih (hashedFieldStep m obj f) (hashedFieldStep_nodup m obj f hnd)
        (hashedFieldStep_values m obj f hval)
    refine ⟨ihnd, ihval, fun a => ?_⟩
    rw [ihmem a, hashedFieldStep_map_fst_mem]
    constructor
    · rintro ((ha | ⟨rfl, hf⟩) | ⟨hafs, har⟩)
      · exact Or.inl ha
      · exact Or.inr ⟨by simp, hf⟩
      · exact Or.inr ⟨by simp [hafs], har⟩
    · rintro (ha | ⟨hacons, har⟩)
      · exact Or.inl (Or.inl ha)
      · rcases List.mem_cons.mp hacons with rfl | hafs
        · exact Or.inl (Or.inr ⟨rfl, har⟩)
        · exact Or.inr ⟨hafs, har⟩

theorem sorted_recognizedFields : List.Sorted strLe recognizedFields := by
  unfold recognizedFields
  decide

theorem insertionSort_foldl_keys (m : ProvenanceMetadata) (fields : List String) :
    List.insertionSort strLe ((fields.foldl (hashedFieldStep m) []).map Prod.fst) =
      recognizedFields.filter fun f => fields.contains f := by
  obtain ⟨hnd, _, hmem⟩ :=
    foldl_hashedFieldStep_spec m fields [] (by simp) (by simp)
  refine List.eq_of_perm_of_sorted ?_ (List.sorted_insertionSort strLe _) ?_
  · refine (List.perm_insertionSort strLe _).trans ?_
    rw [List.perm_ext_iff_of_nodup hnd
      ((by decide : recognizedFields.Nodup).filter _)]
    intro a
    rw [hmem a, List.mem_filter]
    simp only [List.map_nil, List.not_mem_nil, false_or]
    constructor
    · rintro ⟨haf, har⟩
      exact ⟨har, by simpa using haf⟩
    · rintro ⟨har, hc⟩
      exact ⟨by simpa using hc, har⟩
  · exact (List.Sorted.filter _ sorted_recognizedFields : _)

theorem toCanonicalJson_foldl (signature : NotarySignature) (metadata : ProvenanceMetadata) :
    toCanonicalJson (.obj (signature.hashed_fields.foldl (hashedFieldStep metadata) [])) =
      specHashedObjectJson signature metadata := by
  obtain ⟨_, hval, hmem⟩ :=
    foldl_hashedFieldStep_spec metadata signature.hashed_fields [] (by simp) (by simp)
  rw [show
      toCanonicalJson (.obj (signature.hashed_fields.foldl (hashedFieldStep metadata) [])) =
        "\x7b" ++
          String.intercalate ","
            ((List.insertionSort strLe
                ((signature.hashed_fields.foldl (hashedFieldStep metadata) []).map Prod.fst)).map
              fun k =>
                jsonQuote k ++ ":" ++
                  jsonQuote (jsIndex (signature.hashed_fields.foldl (hashedFieldStep metadata) []) k)) ++
          "\x7d"
    from rfl]
  rw [insertionSort_foldl_keys]
  unfold specHashedObjectJson
  refine congrArg (fun t => "\x7b" ++ String.intercalate "," t ++ "\x7d") ?_
  apply List.map_congr_left
  intro f hf
  have hmf := List.mem_filter.mp hf
  have hfk : f ∈ (signature.hashed_fields.foldl (hashedFieldStep metadata) []).map Prod.fst := by
    rw [hmem f]
    exact Or.inr ⟨by simpa using hmf.2, hmf.1⟩
  rw [jsIndex_of_values hval hfk]

theorem hashedFields_single_iff (l : List String) :
    (l.length == 1 && (l.headD "") == "data") = true ↔ l = ["data"] := by
  cases l with
  | nil => simp
  | cons a t =>
    cases t with
    | nil => simp [List.headD]
    | cons b t2 => simp

/-! ## Claim theorems -/

/-- **C1** (amended): for every signature and metadata, `verifyDataHash`
hashes the canonical-JSON rendering of the hashed fields — in the
single-field special case `hashed_fields = ["data"]` this is the JSON string
literal of the `data` value (quoted and escaped by the canonicalizer), not
the raw string; otherwise it is the whitespace-free key-sorted JSON of the
object whose keys are exactly the recognized `hashed_fields` entries among
content_hash, data, stamp_id, provenance_standard (unrecognized names
silently skipped, `provenance_standard` defaulting to the empty string) —
and it returns true iff the SHA-256 hex digest of that string equals
`signature.data_hash` under case-sensitive string equality. -/
theorem verifyDataHash_canonical (signature : NotarySignature) (metadata : ProvenanceMetadata) :
    verifyDataHash signature metadata =
      (sha256Hex (amendedDataHashInput signature metadata) == signature.data_hash) := by
  unfold verifyDataHash amendedDataHashInput
  by_cases h : signature.hashed_fields = ["data"]
  · have hc := (hashedFields_single_iff signature.hashed_fields).mpr h
    simp only [hc, if_true, if_pos h]
    rfl
  · have hc : (signature.hashed_fields.length == 1 &&
        (signature.hashed_fields.headD "") == "data") = false := by
      rw [Bool.eq_false_iff]
      intro hcc
      exact h ((hashedFields_single_iff _).mp hcc)
    simp only [hc, Bool.false_eq_true, if_false, if_neg h]
    rw [toCanonicalJson_foldl]

/-- **C1** counterexample: with `hashed_fields = ["data"]` and an empty
`data` string, a `data_hash` equal to the SHA-256 of the *raw* data string
(as the claim reads) is rejected by the implementation, which hashes the
JSON string literal `""` instead. -/
theorem verifyDataHash_raw_string_counterexample :
    let signature : NotarySignature :=
      { type := "notary", signer := "0xabc", timestamp := "2024-01-01T00:00:00Z",
        data_hash := "e3b0c44298fc1c149afbf4c8996fb92427ae41e4649b934ca495991b7852b855",
        signature := "0xsig", hashed_fields := ["data"], signed_message_format := "" }
    let metadata : ProvenanceMetadata :=
      { data := "", content_hash := "", stamp_id := "s", provenance_standard := none,
        encryption := none }
    (sha256Hex (claimDataHashInput signature metadata) == signature.data_hash) = true ∧
      verifyDataHash signature metadata = false := by
  decide

/-- **C3** (amended): `verifySignature` checks the data hash first; on
mismatch it returns overall invalid with error "Data hash mismatch" (capital
D) without consulting the signer.  Otherwise, when `expectedSigner` is
supplied *and non-empty* (an empty string is falsy and treated as not
supplied), the signer is compared case-insensitively: a match yields valid
with `signerValid = true`, a mismatch yields invalid with an error naming
both values; with no (truthy) `expectedSigner` the result is valid with
`signerValid` left unset. -/
theorem verifySignature_behavior (signature : NotarySignature) (metadata : ProvenanceMetadata)
    (expectedSigner : Option String) :
    (verifyDataHash signature metadata = false →
      verifySignature signature metadata expectedSigner =
        { valid := false, dataHashValid := false, signerValid := none,
          error := some "Data hash mismatch" }) ∧
    (verifyDataHash signature metadata = true → jsTruthy expectedSigner = false →
      verifySignature signature metadata expectedSigner =
        { valid := true, dataHashValid := true, signerValid := none, error := none }) ∧
    (∀ e, verifyDataHash signature metadata = true → expectedSigner = some e → e ≠ "" →
      (jsToLowerCase signature.signer = jsToLowerCase e →
        verifySignature signature metadata expectedSigner =
          { valid := true, dataHashValid := true, signerValid := some true, error := none }) ∧
      (jsToLowerCase signature.signer ≠ jsToLowerCase e →
        verifySignature signature metadata expectedSigner =
          { valid := false, dataHashValid := true, signerValid := some false,
            error := some ("Signer mismatch: expected " ++ e ++ ", got " ++ signature.signer) })) := by
  refine ⟨fun hbad => ?_, fun hok hfalsy => ?_, fun e hok hsome hne => ⟨fun heq => ?_, fun hne2 => ?_⟩⟩
  · simp [verifySignature, hbad]
  · simp [verifySignature, hok, hfalsy]
  · subst hsome
    have ht : jsTruthy (some e) = true := by simp [jsTruthy, hne]
    simp [verifySignature, hok, ht, heq]
  · subst hsome
    have ht : jsTruthy (some e) = true := by simp [jsTruthy, hne]
    simp [verifySignature, hok, ht, hne2]

/-- **C3** witness: the short-circuit branch at a concrete tampered
signature. -/
theorem verifySignature_behavior_witness :
    verifyDataHash
        { type := "notary", signer := "0xabc", timestamp := "t", data_hash := "tampered",
          signature := "0xsig", hashed_fields := ["data"], signed_message_format := "" }
        { data := "", content_hash := "", stamp_id := "s", provenance_standard := none,
          encryption := none } = false ∧
      verifySignature
        { type := "notary", signer := "0xabc", timestamp := "t", data_hash := "tampered",
          signature := "0xsig", hashed_fields := ["data"], signed_message_format := "" }
        { data := "", content_hash := "", stamp_id := "s", provenance_standard := none,
          encryption := none } none =
        { valid := false, dataHashValid := false, signerValid := none,
          error := some "Data hash mismatch" } :=
  ⟨by decide, (verifySignature_behavior _ _ none).1 (by decide)⟩

/-- **C3** counterexample: the error literal is "Data hash mismatch", not
"data hash mismatch", and a supplied-but-empty `expectedSigner` is skipped
(no `signerValid` is set even though the claim's case-insensitive comparison
of `""` with a matching signer would set it to true). -/
theorem verifySignature_error_string_counterexample :
    let badSig : NotarySignature :=
      { type := "notary", signer := "0xabc", timestamp := "t", data_hash := "tampered",
        signature := "0xsig", hashed_fields := ["data"], signed_message_format := "" }
    let goodSig : NotarySignature :=
      { type := "notary", signer := "", timestamp := "t",
        data_hash := "12ae32cb1ec02d01eda3581b127c1fee3b0dc53572ed6baf239721a03d82e126",
        signature := "0xsig", hashed_fields := ["data"], signed_message_format := "" }
    let metadata : ProvenanceMetadata :=
      { data := "", content_hash := "", stamp_id := "s", provenance_standard := none,
        encryption := none }
    (verifySignature badSig metadata none).error = some "Data hash mismatch" ∧
      some "Data hash mismatch" ≠ some "data hash mismatch" ∧
      verifyDataHash goodSig metadata = true ∧
      (verifySignature goodSig metadata (some "")).signerValid = none := by
  decide

theorem list_all_map {α β : Type} (l : List α) (f : α → β) (p : β → Bool) :
    (l.map f).all p = l.all fun a => p (f a) := by
  induction l <;> simp_all

theorem verifyAllSignatures_results (signatures : List NotarySignature)
    (metadata : ProvenanceMetadata) (expectedSigner : Option String) :
    (verifyAllSignatures signatures metadata expectedSigner).results =
      signatures.enum.map fun p =>
        { index := p.1, valid := (verifySignature p.2 metadata expectedSigner).valid,
          error := (verifySignature p.2 metadata expectedSigner).error } := rfl

theorem verifyAllSignatures_allValid (signatures : List NotarySignature)
    (metadata : ProvenanceMetadata) (expectedSigner : Option String) :
    (verifyAllSignatures signatures metadata expectedSigner).allValid =
      (signatures.all fun s => (verifySignature s metadata expectedSigner).valid) := by
  rw [show (verifyAllSignatures signatures metadata expectedSigner).allValid =
      ((signatures.enum.map fun p =>
          ({ index := p.1, valid := (verifySignature p.2 metadata expectedSigner).valid,
             error := (verifySignature p.2 metadata expectedSigner).error } : SigResultItem)).all
        fun r => r.valid) from rfl]
  rw [list_all_map]
  conv_rhs => rw [← List.enum_map_snd signatures]
  rw [list_all_map]

/-- **C8**: `verifyAllSignatures` returns one result per input signature
carrying that signature's original index; `allValid` is the conjunction of
the per-signature validity; the empty list yields `allValid = true` and no
results. -/
theorem verifyAllSignatures_spec (signatures : List NotarySignature)
    (metadata : ProvenanceMetadata) (expectedSigner : Option String) :
    ((verifyAllSignatures signatures metadata expectedSigner).results.map fun r => r.index) =
        List.range signatures.length ∧
      ((verifyAllSignatures signatures metadata expectedSigner).results.map fun r => r.valid) =
        (signatures.map fun s => (verifySignature s metadata expectedSigner).valid) ∧
      (verifyAllSignatures signatures metadata expectedSigner).allValid =
        (signatures.all fun s => (verifySignature s metadata expectedSigner).valid) ∧
      (verifyAllSignatures [] metadata expectedSigner).allValid = true ∧
      (verifyAllSignatures [] metadata expectedSigner).results = [] := by
  refine ⟨?_, ?_, verifyAllSignatures_allValid _ _ _, rfl, rfl⟩
  · rw [verifyAllSignatures_results, List.map_map]
    exact List.enum_map_fst signatures
  · rw [verifyAllSignatures_results, List.map_map]
    conv_rhs => rw [← List.enum_map_snd signatures]
    rw [List.map_map]
    rfl

/-- **C9**: the opaque `signature` bytes are never consulted: changing only
that field leaves the result of `verifySignature` unchanged, for every
metadata and optional expected signer. -/
theorem verifySignature_ignores_signature_bytes (signature : NotarySignature)
    (metadata : ProvenanceMetadata) (expectedSigner : Option String) (v : String) :
    verifySignature { signature with signature := v } metadata expectedSigner =
      verifySignature signature metadata expectedSigner := rfl

theorem char_toNat_lt (c : Char) : c.toNat < 1114112 := by
  rcases c.valid with h | h
  · exact Nat.lt_trans h (by norm_num)
  · exact h.2

theorem utf8EncodeChar_lt (c : Char) : ∀ b ∈ utf8EncodeChar c, b < 256 := by
  intro b hb
  have hc := char_toNat_lt c
  simp only [utf8EncodeChar] at hb
  split_ifs at hb with h1 h2 h3
  · simp at hb; omega
  · simp at hb; rcases hb with rfl | rfl <;> omega
  · simp at hb; rcases hb with rfl | rfl | rfl <;> omega
  · simp at hb; rcases hb with rfl | rfl | rfl | rfl <;> omega

theorem utf8Bytes_lt (s : String) : ∀ b ∈ utf8Bytes s, b < 256 := by
  unfold utf8Bytes
  induction s.data with
  | nil => simp
  | cons c t ih =>
    intro b hb
    simp only [List.foldr_cons, List.mem_append] at hb
    rcases hb with hb | hb
    · exact utf8EncodeChar_lt c b hb
    · exact ih b hb

theorem toBytes_lt (content : ContentInput) (h : validContent content) :
    ∀ b ∈ toBytes content, b < 256 := by
  cases content with
  | bytes l => exact h
  | str s => exact utf8Bytes_lt s

/-- **C5**: for every content (bytes or string) and build options, the
content-hash self-check succeeds on freshly built metadata:
`buildMetadata` sets `data` to the base64 of the content bytes and
`content_hash` to their SHA-256 hex digest, and the decode-and-rehash
comparison of `verifyContentHash` recovers exactly those bytes. -/
theorem verifyContentHash_buildMetadata (content : ContentInput)
    (options : MetadataBuilderOptions) (h : validContent content) :
    verifyContentHash (buildMetadata (toBytes content) options) = true := by
  show (sha256HexBytes (extractContent (buildMetadata (toBytes content) options)) ==
    (buildMetadata (toBytes content) options).content_hash) = true
  rw [show extractContent (buildMetadata (toBytes content) options) =
        nodeBase64Decode (bytesToBase64 (toBytes content)) from rfl,
      nodeBase64Decode_bytesToBase64 (toBytes content) (toBytes_lt content h),
      show (buildMetadata (toBytes content) options).content_hash =
        sha256HexBytes (toBytes content) from rfl]
  exact beq_self_eq_true _

/-- **C5** witness: the spec's end-to-end example content. -/
theorem verifyContentHash_buildMetadata_witness :
    validContent (.str "Hello, World!") ∧
      verifyContentHash
        (buildMetadata (toBytes (.str "Hello, World!"))
          { stampId := "stamp123", standard := none, encryption := none }) = true :=
  ⟨trivial, verifyContentHash_buildMetadata _ _ trivial⟩

theorem parseMetadata_serializeMetadata (m : ProvenanceMetadata) :
    parseMetadata (serializeMetadata m) = .ok m := by
  obtain ⟨d, ch, sid, ps, enc⟩ := m
  cases ps <;> cases enc <;> rfl

/-- **C6**: serializing and re-parsing metadata built by `buildMetadata`
(under any option combination) restores it exactly, and an unset optional
field is genuinely absent from the serialized object (its key is present
iff the field is set), never emitted as null or empty. -/
theorem parse_serialize_roundtrip (content : List Nat) (options : MetadataBuilderOptions) :
    parseMetadata (serializeMetadata (buildMetadata content options)) =
        .ok (buildMetadata content options) ∧
      (jsonObjKeys (serializeMetadata (buildMetadata content options))).contains
          "provenance_standard" = (buildMetadata content options).provenance_standard.isSome ∧
      (jsonObjKeys (serializeMetadata (buildMetadata content options))).contains "encryption" =
        (buildMetadata content options).encryption.isSome := by
  refine ⟨parseMetadata_serializeMetadata _, ?_, ?_⟩ <;>
    · obtain ⟨d, ch, sid, ps, enc⟩ := buildMetadata content options
      cases ps <;> cases enc <;> rfl

/-- **C2**: whenever the (normalized) response metadata fails the
content-hash check, the download pipeline throws the generic provenance
error coded `CONTENT_HASH_MISMATCH` — no result, hence no decoded content,
reaches the caller, whatever the verify option and notary address. -/
theorem download_content_hash_mismatch (body : GatewayDownloadBody)
    (verifyOption : Option Bool) (notaryAddress : Option String)
    (h : verifyContentHash (normalizeDownloadBody body).1 = false) :
    downloadRespond body verifyOption notaryAddress =
      .error { kind := .provenance, message := "Content hash verification failed",
               statusCode := none, code := some "CONTENT_HASH_MISMATCH" } := by
  simp only [downloadRespond, h]
  rfl

/-- **C2** witness: a direct-shape response whose `content_hash` does not
match its (empty) data. -/
theorem download_content_hash_mismatch_witness :
    verifyContentHash
        (normalizeDownloadBody (.direct ⟨"", "wrong", "s", none, none⟩)).1 = false ∧
      downloadRespond (.direct ⟨"", "wrong", "s", none, none⟩) none none =
        .error { kind := .provenance, message := "Content hash verification failed",
                 statusCode := none, code := some "CONTENT_HASH_MISMATCH" } :=
  ⟨by decide, download_content_hash_mismatch _ _ _ (by decide)⟩

/-- **C4**: a failed (non-success) HTTP response during an upload with
`sign: 'notary'` surfaces as a Notary-kind error wrapping the gateway's
message and code as classified by `handleError` — not as the
gateway-connection error that `handleError` itself builds; and
`handleError` prefers the gateway's non-empty `detail` message. -/
theorem upload_notary_error (metadata : ProvenanceMetadata) (status : Nat)
    (statusText : String) (errorBody : Option GatewayErrorBody) :
    uploadRespond (some "notary") metadata (.notOk status statusText errorBody) =
        .error { kind := .notary, message := (handleError status statusText errorBody).message,
                 statusCode := none, code := (handleError status statusText errorBody).code } ∧
      (handleError status statusText errorBody).kind = .gatewayConnection ∧
      ErrorKind.notary ≠ ErrorKind.gatewayConnection ∧
      ∀ d c, (handleError status statusText (some ⟨some d, c⟩)).message =
        if d = "" then "Gateway error: " ++ toString status ++ " " ++ statusText else d := by
  refine ⟨rfl, ?_, by decide, ?_⟩
  · cases errorBody <;> rfl
  · intro d c
    by_cases hd : d = "" <;> simp [handleError, hd]

theorem list_all_congr {α : Type} (l : List α) (f g : α → Bool)
    (h : ∀ x ∈ l, f x = g x) : l.all f = l.all g := by
  induction l with
  | nil => rfl
  | cons a t ih =>
    simp only [List.all_cons, h a (by simp)]
    rw [ih fun x hx => h x (by simp [hx])]

/-- **C10**: an empty-string `expectedSigner` is falsy and behaves exactly
like an absent one, so `verifySignature` skips the signer comparison; at
the download level, when the notary info has no (or an empty) address and a
non-empty signature list arrives, the `verified` flag is set purely from
the per-signature data-hash checks — it is true whenever every signature's
`data_hash` matches, with no signer identity ever compared. -/
theorem download_weak_verification :
    (∀ signature metadata,
        verifySignature signature metadata (some "") = verifySignature signature metadata none) ∧
      (∀ metadata signatures verifyOption notaryAddress,
        jsTruthy notaryAddress = false →
        verifyContentHash metadata = true →
        signatures ≠ [] →
        verifyOption ≠ some false →
        downloadRespond (.wrapped metadata (some signatures)) verifyOption notaryAddress =
          .ok { file := extractContent metadata, metadata := metadata,
                verified := some (signatures.all fun s => verifyDataHash s metadata),
                signatures := some signatures }) := by
  have hvalid : ∀ (sig : NotarySignature) (m : ProvenanceMetadata) (exp : Option String),
      jsTruthy exp = false → (verifySignature sig m exp).valid = verifyDataHash sig m := by
    intro sig m exp hexp
    by_cases hv : verifyDataHash sig m <;> simp [verifySignature, hv, hexp]
  constructor
  · intro sig m
    rfl
  · intro m sigs verifyOption notaryAddress haddr hch hne hvopt
    have hlen : 0 < sigs.length := List.length_pos.mpr hne
    have hbne : (verifyOption != some false) = true := by
      simpa [bne_iff_ne] using hvopt
    simp only [downloadRespond, normalizeDownloadBody, hch]
    simp only [Bool.not_true, Bool.false_eq_true, if_false, hlen, if_true, hbne]
    rw [verifyAllSignatures_allValid]
    rw [list_all_congr sigs _ _ fun s _ => hvalid s m notaryAddress haddr]

/-- **C10** witness: a download carrying one data-hash-valid signature,
verified against a notary info whose address is the empty string. -/
theorem download_weak_verification_witness :
    let metadata : ProvenanceMetadata :=
      { data := "", content_hash := "e3b0c44298fc1c149afbf4c8996fb92427ae41e4649b934ca495991b7852b855",
        stamp_id := "s", provenance_standard := none, encryption := none }
    let signature : NotarySignature :=
      { type := "notary", signer := "0xabc", timestamp := "t",
        data_hash := "12ae32cb1ec02d01eda3581b127c1fee3b0dc53572ed6baf239721a03d82e126",
        signature := "0xsig", hashed_fields := ["data"], signed_message_format := "" }
    jsTruthy (some "") = false ∧
      verifyContentHash metadata = true ∧
      [signature] ≠ ([] : List NotarySignature) ∧
      (none : Option Bool) ≠ some false ∧
      downloadRespond (.wrapped metadata (some [signature])) none (some "") =
        .ok { file := extractContent metadata, metadata := metadata,
              verified := some ([signature].all fun s => verifyDataHash s metadata),
              signatures := some [signature] } :=
  ⟨by decide, by decide, by simp, by simp,
    (download_weak_verification).2 _ _ _ _ (by decide) (by decide) (by simp) (by simp)⟩

end Provenance
